import Mathlib

/-!
A shallow embedding of the feedback-wizard engine implemented by the React
component `ReviewHub` (src/src/components/ReviewHub.tsx).  JavaScript objects
with string keys are modelled as association lists with JS object-literal
update semantics (an existing key is overwritten in place, a new key is
appended).  Browser `localStorage` is modelled as an optional stored cell;
the partiality of `JSON.parse` is made explicit by a `malformed` constructor.
-/

namespace ReviewHubModel

/-- The four pages of the wizard, from `type PageType` in the source. -/
inductive Page
  | landing
  | short_review
  | testimonial_deepdive
  | success
deriving DecidableEq, Repr

/-- `interface FormData`: a JS object mapping field identifiers to string
values, modelled as an association list in insertion order. -/
abbrev FormRecord := List (String × String)

/-- First-match lookup, the semantics of reading a JS object property. -/
def jsGet {A : Type} : List (String × A) → String → Option A
  | [], _ => none
  | (k', v) :: rest, k => if k' = k then some v else jsGet rest k

/-- JS object update `{ ...prev, [k]: v }`: an existing key keeps its
position and receives the new value, a fresh key is appended at the end. -/
def jsSet {A : Type} (m : List (String × A)) (k : String) (v : A) :
    List (String × A) :=
  if k ∈ m.map Prod.fst then
    m.map (fun p => if p.1 = k then (k, v) else p)
  else
    m ++ [(k, v)]

/-- `errors: Record<string, string | null>`; the value `none` models JS
`null` (an explicitly cleared error), and an absent key an entry never
written. -/
abbrev ErrMap := List (String × Option String)

/-- `interface UploadedFile` from the source. -/
structure UploadedFile where
  name : String
  type : String
  size : Nat
  data : String
deriving DecidableEq, Repr

/-- The mutable aggregate held in the component's `useState` hooks. -/
structure WizardState where
  currentPage : Page
  formData : FormRecord
  errors : ErrMap
  isSubmitting : Bool
  submitError : Option String
  draftSaved : Bool
  uploadedFile : Option UploadedFile
  rating : Nat
deriving Repr

/-- The initial state established by the `useState` initialisers. -/
def initialState : WizardState :=
  { currentPage := .landing
    formData := []
    errors := []
    isSubmitting := false
    submitError := none
    draftSaved := false
    uploadedFile := none
    rating := 0 }

/-! ### Field validator

`validateField` tests the email value against the regular expression
`/^[^\s@]+@[^\s@]+\.[^\s@]+$/`.  A character class `[^\s@]` is modelled by
`okChar`; the anchored regex matches exactly when the character list splits
as `l ++ '@' :: x ++ '.' :: y` with `l`, `x`, `y` non-empty lists of
`okChar` characters. -/

/-- One character of the class `[^\s@]`: neither whitespace nor `@`. -/
def okChar (c : Char) : Bool := !c.isWhitespace && c != '@'

/-- All ways of splitting a list into a pair of lists whose concatenation
is the original list. -/
def splits : List Char → List (List Char × List Char)
  | [] => [([], [])]
  | c :: cs => ([], c :: cs) :: (splits cs).map (fun p => (c :: p.1, p.2))

/-- Membership in `splits` is exactly being a two-part decomposition. -/
theorem mem_splits (cs l r : List Char) :
    (l, r) ∈ splits cs ↔ cs = l ++ r := by
  induction cs generalizing l with
  | nil =>
    constructor
    · intro h
      simp only [splits, List.mem_singleton, Prod.mk.injEq] at h
      simp [h.1, h.2]
    · intro h
      have h2 := List.append_eq_nil.mp h.symm
      simp [splits, h2.1, h2.2]
  | cons c cs ih =>
    cases l with
    | nil => simp [splits, eq_comm]
    | cons a l' =>
      simp only [splits, List.mem_cons, List.mem_map, Prod.mk.injEq,
        List.cons_append, List.cons.injEq, false_and, false_or,
        List.cons_ne_nil, Prod.exists, reduceCtorEq]
      constructor
      · rintro ⟨x, y, hmem, ⟨hc, hx⟩, hy⟩
        subst hx; subst hy
        exact ⟨hc, (ih x).mp hmem⟩
      · rintro ⟨hc, hrest⟩
        exact ⟨l', r, (ih l').mpr hrest, ⟨hc, rfl⟩, rfl⟩

/-- The part of the regex after the `.`: `[^\s@]+$`. -/
def matchTail (y : List Char) : Bool := !y.isEmpty && y.all okChar

/-- The literal `.` of the regex followed by `[^\s@]+$`. -/
def matchDot : List Char → Bool
  | c :: y => c == '.' && matchTail y
  | [] => false

/-- The part of the regex after the `@`: `[^\s@]+\.[^\s@]+$`. -/
def matchDomain (d : List Char) : Bool :=
  (splits d).any fun q => !q.1.isEmpty && q.1.all okChar && matchDot q.2

/-- The literal `@` of the regex followed by the domain part. -/
def matchAtSign : List Char → Bool
  | c :: d => c == '@' && matchDomain d
  | [] => false

/-- The full anchored regex `^[^\s@]+@[^\s@]+\.[^\s@]+$` on a character
list: some decomposition realises the pattern (regex backtracking finds a
match exactly when such a decomposition exists). -/
def emailMatch (cs : List Char) : Bool :=
  (splits cs).any fun p => !p.1.isEmpty && p.1.all okChar && matchAtSign p.2

/-- Declarative form of the regex: the string splits as
`l ++ '@' :: x ++ '.' :: y` with `l`, `x`, `y` non-empty runs of `[^\s@]`
characters. -/
def EmailShape (cs : List Char) : Prop :=
  ∃ l x y : List Char,
    cs = l ++ '@' :: (x ++ '.' :: y) ∧ l ≠ [] ∧ x ≠ [] ∧ y ≠ [] ∧
      (∀ c ∈ l, okChar c) ∧ (∀ c ∈ x, okChar c) ∧ (∀ c ∈ y, okChar c)

/-- The executable matcher agrees with the declarative shape. -/
theorem emailMatch_iff (cs : List Char) : emailMatch cs = true ↔ EmailShape cs := by
  constructor
  · intro h
    obtain ⟨⟨l, rest⟩, hmem, hp⟩ := List.any_eq_true.mp h
    simp only [Bool.and_eq_true, Bool.not_eq_true', List.isEmpty_eq_false_iff_exists_mem] at hp
    obtain ⟨⟨hlne, hl⟩, hat⟩ := hp
    cases rest with
    | nil => exact absurd hat (by simp [matchAtSign])
    | cons c d =>
      simp only [matchAtSign, Bool.and_eq_true, beq_iff_eq] at hat
      obtain ⟨hc, hdom⟩ := hat
      obtain ⟨⟨x, rest2⟩, hmem2, hq⟩ := List.any_eq_true.mp hdom
      simp only [Bool.and_eq_true, Bool.not_eq_true', List.isEmpty_eq_false_iff_exists_mem] at hq
      obtain ⟨⟨hxne, hx⟩, hdot⟩ := hq
      cases rest2 with
      | nil => exact absurd hdot (by simp [matchDot])
      | cons c2 y =>
        simp only [matchDot, matchTail, Bool.and_eq_true, beq_iff_eq,
          Bool.not_eq_true', List.isEmpty_eq_false_iff_exists_mem,
          List.all_eq_true] at hdot
        obtain ⟨hc2, ⟨_, hyne⟩, hy⟩ := hdot
        refine ⟨l, x, y, ?_, ?_, ?_, ?_, ?_, ?_, ?_⟩
        · have h1 := (mem_splits _ _ _).mp hmem
          have h2 := (mem_splits _ _ _).mp hmem2
          subst hc; subst hc2
          simp [h1, h2]
        · rintro rfl; simp at hlne
        · rintro rfl; simp at hxne
        · rintro rfl; simp at hyne
        · exact fun c hc => List.all_eq_true.mp hl c hc
        · exact fun c hc => List.all_eq_true.mp hx c hc
        · exact hy
  · rintro ⟨l, x, y, hcs, hl, hx, hy, hlc, hxc, hyc⟩
    apply List.any_eq_true.mpr
    refine ⟨(l, '@' :: (x ++ '.' :: y)), (mem_splits _ _ _).mpr hcs, ?_⟩
    simp only [Bool.and_eq_true, Bool.not_eq_true', matchAtSign, beq_self_eq_true,
      true_and, List.isEmpty_eq_false_iff_exists_mem, List.all_eq_true]
    refine ⟨⟨⟨l.head (by exact hl), List.head_mem hl⟩, hlc⟩, ?_⟩
    apply List.any_eq_true.mpr
    refine ⟨(x, '.' :: y), (mem_splits _ _ _).mpr rfl, ?_⟩
    simp only [Bool.and_eq_true, Bool.not_eq_true', matchDot, matchTail,
      beq_self_eq_true, true_and, List.isEmpty_eq_false_iff_exists_mem,
      List.all_eq_true]
    exact ⟨⟨⟨x.head hx, List.head_mem hx⟩, hxc⟩,
      ⟨y.head hy, List.head_mem hy⟩, hyc⟩

/-- The pattern as the specification sentence words it: "local-part@domain,
each non-empty, no whitespace, domain contains a dot".  Written from the
spec text for comparison with the regex the source actually uses. -/
def specAfterLocal : List Char → Bool
  | c :: d => c == '@' && !d.isEmpty && d.all (fun a => !a.isWhitespace) && d.contains '.'
  | [] => false

/-- Executable form of the specification's email pattern: some split gives
a non-empty whitespace-free local part, then `@`, then a non-empty
whitespace-free domain containing a dot. -/
def specEmailPattern (cs : List Char) : Bool :=
  (splits cs).any fun p =>
    !p.1.isEmpty && p.1.all (fun a => !a.isWhitespace) && specAfterLocal p.2

/-- The error string returned for empty required fields. -/
def requiredMsg : String := "This field is required"

/-- The error string returned for ill-formed email values. -/
def invalidEmailMsg : String := "Please enter a valid email"

/-- `validateField` from the source:
`if (required && !value) return 'This field is required';`
`if (id === 'email' && value && !regex.test(value)) return 'Please enter a valid email';`
`return null;` -/
def validateField (id : String) (value : String) (required : Bool) :
    Option String :=
  if required && value == "" then some requiredMsg
  else if id == "email" && value != "" && !emailMatch value.data then
    some invalidEmailMsg
  else none

/-- `handleInputChange`: stores the value and records the verdict of
`validateField(id, value, true)` — the required flag is hard-coded to
`true` in the source. -/
def handleInputChange (id value : String) (s : WizardState) : WizardState :=
  { s with
    formData := jsSet s.formData id value
    errors := jsSet s.errors id (validateField id value true) }

/-! ### Draft store

`localStorage` holds at most one value under the fixed key
`'testimonial_draft'`; the cell is modelled as `Option StoredValue`.  The
partial outcomes of decoding the stored string are made explicit. -/

/-- What the stored string decodes to. -/
inductive StoredValue where
  /-- A stored string on which `JSON.parse(draft)` throws (or yields `null`,
  whose destructuring throws): reading raises an uncaught exception. -/
  | malformed
  /-- A parsed `{data, timestamp}` object whose timestamp does not parse as
  a date: `new Date(timestamp).getTime()` is NaN, so
  `age < 24*60*60*1000` is false and the draft is ignored. -/
  | badTimestamp (data : FormRecord)
  /-- A well-formed `{data, timestamp}` object; `savedAt` is the epoch
  millisecond value of the stored ISO-8601 timestamp. -/
  | draftRec (data : FormRecord) (savedAt : Int)
deriving DecidableEq, Repr

/-- `24 * 60 * 60 * 1000` milliseconds, the staleness cutoff of the
draft-loading effect. -/
def ttlMillis : Int := 24 * 60 * 60 * 1000

/-- The mount-time draft read: absent key yields no draft; a malformed
stored record makes `JSON.parse` throw, and no surrounding handler exists,
so the exception escapes (`Except.error`); a fresh draft is returned and a
stale one (age `≥ ttlMillis`) is ignored. -/
def loadDraft (stored : Option StoredValue) (now : Int) :
    Except Unit (Option FormRecord) :=
  match stored with
  | none => .ok none
  | some .malformed => .error ()
  | some (.badTimestamp _) => .ok none
  | some (.draftRec data savedAt) =>
      if now - savedAt < ttlMillis then .ok (some data) else .ok none

/-- The debounced auto-save body: `localStorage.setItem('testimonial_draft',
JSON.stringify({data: formData, timestamp: new Date().toISOString()}))`,
unconditionally overwriting the cell. -/
def saveDraft (r : FormRecord) (now : Int) : StoredValue := .draftRec r now

/-- The load effect paired with the storage cell after it runs; the mount
effect contains no `removeItem`, so the cell is passed through. -/
def loadDraftEffect (stored : Option StoredValue) (now : Int) :
    Except Unit (Option FormRecord) × Option StoredValue :=
  (loadDraft stored now, stored)

/-! ### Upload gatekeeper

`handleFileUpload` admits `image/jpeg`, `image/png` and `image/svg+xml`
files of at most `5 * 1024 * 1024` bytes and stores the file with its
contents encoded by `FileReader.readAsDataURL`, i.e. as
`data:<mime>;base64,<base64 of the bytes>`.  Bytes are naturals below
256. -/

/-- The base64 alphabet. -/
def b64Str : String :=
  "ABCDEFGHIJKLMNOPQRSTUVWXYZabcdefghijklmnopqrstuvwxyz0123456789+/"

/-- Digit `n` of the base64 alphabet. -/
def b64Char (n : Nat) : Char := b64Str.data.getD n 'A'

/-- Position of a character in a character list (length if absent). -/
def idxOf (c : Char) : List Char → Nat
  | [] => 0
  | x :: xs => if x = c then 0 else idxOf c xs + 1

/-- Numeric value of a base64 digit. -/
def b64Val (c : Char) : Nat := idxOf c b64Str.data

/-- Encoding of one group of at most three bytes into four base64
characters, padding with `=`. -/
def encodeChunk : List Nat → List Char
  | [a] => [b64Char (a / 4), b64Char (a % 4 * 16), '=', '=']
  | [a, b] => [b64Char (a / 4), b64Char (a % 4 * 16 + b / 16), b64Char (b % 16 * 4), '=']
  | [a, b, c] => [b64Char (a / 4), b64Char (a % 4 * 16 + b / 16),
      b64Char (b % 16 * 4 + c / 64), b64Char (c % 64)]
  | _ => []

/-- Base64 encoding of a byte list, three bytes at a time. -/
def b64encode : List Nat → List Char
  | [] => []
  | [a] => encodeChunk [a]
  | [a, b] => encodeChunk [a, b]
  | a :: b :: c :: rest => encodeChunk [a, b, c] ++ b64encode rest

/-- Decoding of one four-character base64 group, honouring `=` padding. -/
def decodeChunk (cs : List Char) : List Nat :=
  match cs with
  | [c1, c2, c3, c4] =>
    if c3 = '=' then [b64Val c1 * 4 + b64Val c2 / 16]
    else if c4 = '=' then
      [b64Val c1 * 4 + b64Val c2 / 16, b64Val c2 % 16 * 16 + b64Val c3 / 4]
    else
      [b64Val c1 * 4 + b64Val c2 / 16, b64Val c2 % 16 * 16 + b64Val c3 / 4,
        b64Val c3 % 4 * 64 + b64Val c4]
  | _ => []

/-- Grouping of a character list into four-character chunks. -/
def chunks4 : List Char → List (List Char)
  | c1 :: c2 :: c3 :: c4 :: rest => [c1, c2, c3, c4] :: chunks4 rest
  | [] => []
  | l => [l]

/-- Base64 decoding. -/
def b64decode (cs : List Char) : List Nat := ((chunks4 cs).map decodeChunk).flatten

/-- Values below 64 round-trip through the alphabet, and no digit is `=`
or `,`. -/
theorem b64Char_spec : ∀ n, n < 64 →
    b64Val (b64Char n) = n ∧ b64Char n ≠ '=' ∧ b64Char n ≠ ',' := by decide

/-- Base64 decoding undoes encoding on lists of bytes. -/
theorem b64_roundtrip : ∀ bytes : List Nat, (∀ b ∈ bytes, b < 256) →
    b64decode (b64encode bytes) = bytes := by
  intro bytes
  induction bytes using b64encode.induct with
  | case1 => intro _; rfl
  | case2 a =>
    intro h
    have ha : a < 256 := h a (by simp)
    have h1 := (b64Char_spec (a / 4) (by omega)).1
    have h2 := (b64Char_spec (a % 4 * 16) (by omega)).1
    simp only [b64encode, encodeChunk, b64decode, chunks4, List.map,
      decodeChunk, List.flatten, if_pos rfl, h1, h2, List.append_nil]
    simp
    omega
  | case3 a b =>
    intro h
    have ha : a < 256 := h a (by simp)
    have hb : b < 256 := h b (by simp)
    have s1 := b64Char_spec (a / 4) (by omega)
    have s2 := b64Char_spec (a % 4 * 16 + b / 16) (by omega)
    have s3 := b64Char_spec (b % 16 * 4) (by omega)
    simp only [b64encode, encodeChunk, b64decode, chunks4, List.map,
      decodeChunk, List.flatten, if_neg s3.2.1, if_pos rfl, s1.1, s2.1, s3.1,
      List.append_nil]
    simp
    omega
  | case4 a b c rest ih =>
    intro h
    have ha : a < 256 := h a (by simp)
    have hb : b < 256 := h b (by simp)
    have hc : c < 256 := h c (by simp)
    have s1 := b64Char_spec (a / 4) (by omega)
    have s2 := b64Char_spec (a % 4 * 16 + b / 16) (by omega)
    have s3 := b64Char_spec (b % 16 * 4 + c / 64) (by omega)
    have s4 := b64Char_spec (c % 64) (by omega)
    have hrest : ∀ x ∈ rest, x < 256 := fun x hx => h x (by simp [hx])
    simp only [b64encode, encodeChunk, List.cons_append, List.nil_append,
      b64decode, chunks4, List.map, List.flatten, decodeChunk,
      if_neg s3.2.1, if_neg s4.2.1, s1.1, s2.1, s3.1, s4.1]
    have hre := ih hrest
    simp only [b64decode] at hre
    simp [List.append_eq, hre]
    omega

/-- The string produced by `FileReader.readAsDataURL` for a file of the
given MIME type and contents. -/
def readAsDataURL (type : String) (bytes : List Nat) : String :=
  "data:" ++ type ++ ";base64," ++ String.mk (b64encode bytes)

/-- Recovery of the bytes from a data URI: everything after the first `,`
is base64-decoded.  The header `data:<mime>;base64,` of an admitted file
contains exactly one `,`, at its end. -/
def dataURLBytes (s : String) : List Nat :=
  b64decode ((s.data.dropWhile (fun c => c != ',')).drop 1)

/-- `dropWhile` skips over a block of characters that all satisfy the
predicate. -/
theorem dropWhile_append_all (p : Char → Bool) (xs ys : List Char)
    (h : ∀ x ∈ xs, p x = true) :
    List.dropWhile p (xs ++ ys) = List.dropWhile p ys := by
  induction xs with
  | nil => rfl
  | cons x xs ih =>
    rw [List.cons_append, List.dropWhile_cons, if_pos (h x (by simp))]
    exact ih fun a ha => h a (by simp [ha])

/-- On the data URI of a file whose MIME type contains no comma,
`dataURLBytes` recovers exactly the base64 payload's bytes. -/
theorem dataURLBytes_readAsDataURL (type : String) (bytes : List Nat)
    (htype : ∀ c ∈ type.data, (c != ',') = true)
    (hbytes : ∀ b ∈ bytes, b < 256) :
    dataURLBytes (readAsDataURL type bytes) = bytes := by
  have hdata : (readAsDataURL type bytes).data =
      ("data:".data ++ type.data ++ ";base64".data) ++ (',' :: b64encode bytes) := by
    simp only [readAsDataURL, String.data_append]
    have : ";base64,".data = ";base64".data ++ [','] := rfl
    simp [this]
  have hpre : ∀ c ∈ "data:".data ++ type.data ++ ";base64".data, (c != ',') = true := by
    intro c hcmem
    have hd : ∀ c ∈ "data:".data, (c != ',') = true := by decide
    have hb : ∀ c ∈ ";base64".data, (c != ',') = true := by decide
    rcases List.mem_append.mp hcmem with hcmem' | hcmem'
    · rcases List.mem_append.mp hcmem' with hcmem'' | hcmem''
      · exact hd c hcmem''
      · exact htype c hcmem''
    · exact hb c hcmem'
  rw [dataURLBytes, hdata, dropWhile_append_all _ _ _ hpre,
    List.dropWhile_cons, if_neg (by simp)]
  simpa using b64_roundtrip bytes hbytes

/-- A file as delivered by the file-input change event: declared MIME
type, byte size, and raw contents. -/
structure CandidateFile where
  name : String
  type : String
  size : Nat
  bytes : List Nat
deriving Repr

/-- `validTypes` from `handleFileUpload`. -/
def validTypes : List String := ["image/jpeg", "image/png", "image/svg+xml"]

/-- `maxSize = 5 * 1024 * 1024` from `handleFileUpload`. -/
def maxSize : Nat := 5 * 1024 * 1024

/-- The message surfaced when the declared MIME type is not admitted. -/
def unsupportedTypeMsg : String := "Please upload JPG, PNG, or SVG only"

/-- The message surfaced when the file is larger than `maxSize`. -/
def tooLargeMsg : String := "File must be under 5MB"

/-- `handleFileUpload`: the type gate runs first and sets `errors.logo`
without touching `uploadedFile`; then the size gate, likewise; otherwise
the reader callback replaces `uploadedFile` with the data-URL-encoded file
and clears `errors.logo`. -/
def handleFileUpload (f : CandidateFile) (s : WizardState) : WizardState :=
  if ¬ f.type ∈ validTypes then
    { s with errors := jsSet s.errors "logo" (some unsupportedTypeMsg) }
  else if f.size > maxSize then
    { s with errors := jsSet s.errors "logo" (some tooLargeMsg) }
  else
    { s with
      uploadedFile := some ⟨f.name, f.type, f.size, readAsDataURL f.type f.bytes⟩
      errors := jsSet s.errors "logo" none }

/-! ### Submission lifecycle

The payload is the JS object literal of `handleSubmit`; JSON values that
occur in it are strings, a number, `null`, and the uploaded-file object. -/

/-- The values appearing in the outbound payload. -/
inductive JsonVal where
  | jstr (s : String)
  | jnum (n : Nat)
  | jnull
  | jfile (f : UploadedFile)
deriving DecidableEq, Repr

/-- A JSON object under construction, as an association list in property
insertion order. -/
abbrev JsonObj := List (String × JsonVal)

/-- The object literal of `handleSubmit`, property by property in source
order: `reviewType`, `submittedAt`, then the spread of `formData`, then
`rating` (`rating || null`), `file`, `userAgent`, `referrer`. -/
def buildPayload (formType submittedAt : String) (formData : FormRecord)
    (rating : Nat) (uploadedFile : Option UploadedFile)
    (userAgent referrer : String) : JsonObj :=
  let o : JsonObj := []
  let o := jsSet o "reviewType" (.jstr formType)
  let o := jsSet o "submittedAt" (.jstr submittedAt)
  let o := formData.foldl (fun acc kv => jsSet acc kv.1 (.jstr kv.2)) o
  let o := jsSet o "rating" (if rating = 0 then .jnull else .jnum rating)
  let o := jsSet o "file"
    (match uploadedFile with | some f => .jfile f | none => .jnull)
  let o := jsSet o "userAgent" (.jstr userAgent)
  jsSet o "referrer" (.jstr referrer)

/-- The outcome of the `fetch` call: an HTTP response with a status, or a
transport-level failure (the promise rejects). -/
inductive FetchOutcome where
  | response (status : Nat)
  | transportError
deriving DecidableEq, Repr

/-- `response.ok`: the status lies in `[200, 299]`. -/
def responseOk (status : Nat) : Bool := 200 ≤ status && status < 300

/-- A failing outcome: a transport error, or a response that is not ok.
Both reach the `catch` block of `handleSubmit`. -/
def failedOutcome : FetchOutcome → Prop
  | .response status => responseOk status = false
  | .transportError => True

/-- The banner message set by the `catch` block. -/
def submitFailMsg : String :=
  "Unable to submit. Please check your connection and try again."

/-- The first two statements of `handleSubmit`, executed before the
network call: `setIsSubmitting(true); setSubmitError(null);`. -/
def submitStart (s : WizardState) : WizardState :=
  { s with isSubmitting := true, submitError := none }

/-- The continuation of `handleSubmit` once the fetch settles: on an ok
response the draft is removed, the page moves to `success` and
`record.formType` is written; otherwise the catch block sets the banner
message; the finally block resets `isSubmitting`.  Returns the new state
together with the storage cell. -/
def submitFinish (formType : String) (outcome : FetchOutcome)
    (s : WizardState) (store : Option StoredValue) :
    WizardState × Option StoredValue :=
  match outcome with
  | .response status =>
    if responseOk status then
      ({ s with
          currentPage := .success
          formData := jsSet s.formData "formType" formType
          isSubmitting := false }, none)
    else
      ({ s with submitError := some submitFailMsg, isSubmitting := false }, store)
  | .transportError =>
      ({ s with submitError := some submitFailMsg, isSubmitting := false }, store)

/-- The whole of `handleSubmit` for a given fetch outcome. -/
def handleSubmit (formType : String) (outcome : FetchOutcome)
    (s : WizardState) (store : Option StoredValue) :
    WizardState × Option StoredValue :=
  submitFinish formType outcome (submitStart s) store

/-! ### Page transitions -/

/-- The two survey tracks offered on the landing page. -/
inductive Track where
  | shortReview
  | deepDive
deriving DecidableEq, Repr

/-- The page a track's landing button navigates to. -/
def trackPage : Track → Page
  | .shortReview => .short_review
  | .deepDive => .testimonial_deepdive

/-- A landing-page track button: `setCurrentPage(...)` and nothing else. -/
def choose (t : Track) (s : WizardState) : WizardState :=
  { s with currentPage := trackPage t }

/-- The back button of either track page: `setCurrentPage('landing')` and
nothing else. -/
def goBack (s : WizardState) : WizardState :=
  { s with currentPage := .landing }

/-- The "Return Home" button of the success page:
`setCurrentPage('landing'); setFormData({}); setRating(0);
setUploadedFile(null);`. -/
def returnHome (s : WizardState) : WizardState :=
  { s with
    currentPage := .landing
    formData := []
    rating := 0
    uploadedFile := none }

/-! ### Association-list lemmas for the JS object model -/

/-- When the key is absent, a JS object update is an append. -/
theorem jsSet_fresh {A : Type} (m : List (String × A)) (k : String) (v : A)
    (h : k ∉ m.map Prod.fst) : jsSet m k v = m ++ [(k, v)] := by
  rw [jsSet, if_neg h]

/-- Replacing every binding of a present key makes lookup return the new
value. -/
theorem jsGet_replace {A : Type} (m : List (String × A)) (k : String) (v : A)
    (hm : k ∈ m.map Prod.fst) :
    jsGet (m.map (fun p => if p.1 = k then (k, v) else p)) k = some v := by
  induction m with
  | nil => simp at hm
  | cons p rest ih =>
    obtain ⟨k', v'⟩ := p
    simp only [List.map_cons]
    by_cases hp : k' = k
    · subst hp
      rw [show (if ((k', v') : String × A).1 = k' then (k', v) else (k', v'))
          = (k', v) from if_pos rfl]
      simp [jsGet]
    · have h : k ∈ rest.map Prod.fst := by
        simp only [List.map_cons, List.mem_cons] at hm
        rcases hm with h | h
        · exact absurd h.symm hp
        · exact h
      rw [show (if ((k', v') : String × A).1 = k then (k, v) else (k', v'))
          = (k', v') from if_neg hp]
      simp only [jsGet]
      rw [if_neg hp]
      exact ih h

/-- Lookup passes over a block whose keys all differ from the key
sought. -/
theorem jsGet_append_right {A : Type} (m1 m2 : List (String × A)) (k : String)
    (h : ∀ p ∈ m1, p.1 ≠ k) : jsGet (m1 ++ m2) k = jsGet m2 k := by
  induction m1 with
  | nil => rfl
  | cons p rest ih =>
    obtain ⟨k', v'⟩ := p
    simp only [List.cons_append, jsGet]
    rw [if_neg (h (k', v') (by simp))]
    exact ih fun q hq => h q (by simp [hq])

/-- Lookup after update finds the value just written. -/
theorem jsGet_jsSet_self {A : Type} (m : List (String × A)) (k : String) (v : A) :
    jsGet (jsSet m k v) k = some v := by
  by_cases hm : k ∈ m.map Prod.fst
  · rw [jsSet, if_pos hm]
    exact jsGet_replace m k v hm
  · rw [jsSet_fresh m k v hm,
      jsGet_append_right m _ k (fun p hp hk => hm (List.mem_map.mpr ⟨p, hp, hk⟩))]
    simp [jsGet]

/-- Folding fresh, pairwise-distinct bindings into a JS object appends
them in order. -/
theorem foldl_jsSet_fresh (fd : FormRecord) (o : JsonObj)
    (hfresh : ∀ kv ∈ fd, kv.1 ∉ o.map Prod.fst)
    (hnd : (fd.map Prod.fst).Nodup) :
    fd.foldl (fun acc kv => jsSet acc kv.1 (.jstr kv.2)) o
      = o ++ fd.map (fun kv => (kv.1, JsonVal.jstr kv.2)) := by
  induction fd generalizing o with
  | nil => simp
  | cons kv rest ih =>
    simp only [List.map_cons, List.nodup_cons] at hnd
    simp only [List.foldl_cons, List.map_cons]
    rw [jsSet_fresh _ _ _ (hfresh kv (by simp))]
    have hfresh' : ∀ kv' ∈ rest, kv'.1 ∉ (o ++ [(kv.1, JsonVal.jstr kv.2)]).map Prod.fst := by
      intro kv' hkv'
      simp only [List.map_append, List.mem_append, List.map_cons, List.map_nil,
        List.mem_singleton, not_or]
      refine ⟨hfresh kv' (by simp [hkv']), fun hk => ?_⟩
      exact hnd.1 (hk ▸ List.mem_map.mpr ⟨kv', hkv', rfl⟩)
    rw [ih (o ++ [(kv.1, JsonVal.jstr kv.2)]) hfresh' hnd.2]
    simp

/-- Lookup of a field binding in the payload's middle block: with
pairwise-distinct field keys the first (and only) occurrence wins. -/
theorem jsGet_map_jstr (fd : FormRecord) (tail : JsonObj)
    (hnd : (fd.map Prod.fst).Nodup) (kv : String × String) (hkv : kv ∈ fd) :
    jsGet (fd.map (fun p => (p.1, JsonVal.jstr p.2)) ++ tail) kv.1
      = some (.jstr kv.2) := by
  induction fd with
  | nil => simp at hkv
  | cons p rest ih =>
    simp only [List.map_cons, List.nodup_cons] at hnd
    simp only [List.map_cons, List.cons_append, jsGet]
    rcases List.mem_cons.mp hkv with h | h
    · subst h; simp
    · by_cases hp : p.1 = kv.1
      · exact absurd (hp ▸ List.mem_map.mpr ⟨kv, h, rfl⟩) hnd.1
      · rw [if_neg hp]
        exact ih hnd.2 h

/-- The reserved top-level property names of the payload object. -/
def reservedKeys : List String :=
  ["reviewType", "submittedAt", "rating", "file", "userAgent", "referrer"]

/-- Normal form of the payload object when the field keys avoid the
reserved property names and are pairwise distinct (a JS object has no
duplicate keys): the spread appends the fields between the two leading
properties and the four trailing ones. -/
theorem buildPayload_eq (ft ts ua rf : String) (fd : FormRecord)
    (rating : Nat) (uf : Option UploadedFile)
    (hdisj : ∀ kv ∈ fd, kv.1 ∉ reservedKeys)
    (hnd : (fd.map Prod.fst).Nodup) :
    buildPayload ft ts fd rating uf ua rf =
      [("reviewType", JsonVal.jstr ft), ("submittedAt", JsonVal.jstr ts)]
        ++ fd.map (fun kv => (kv.1, JsonVal.jstr kv.2))
        ++ [("rating", if rating = 0 then JsonVal.jnull else JsonVal.jnum rating),
            ("file", match uf with | some f => JsonVal.jfile f | none => JsonVal.jnull),
            ("userAgent", JsonVal.jstr ua),
            ("referrer", JsonVal.jstr rf)] := by
  have hres : ∀ k0 ∈ reservedKeys, k0 ∉ fd.map Prod.fst := by
    intro k0 hk0 hmem
    obtain ⟨kv, hkv, hfst⟩ := List.mem_map.mp hmem
    exact hdisj kv hkv (hfst ▸ hk0)
  have hkeysfd : (fd.map (fun kv => (kv.1, JsonVal.jstr kv.2))).map Prod.fst
      = fd.map Prod.fst := by
    rw [List.map_map]; rfl
  have hfr : ∀ kv ∈ fd, kv.1 ∉
      ([("reviewType", JsonVal.jstr ft), ("submittedAt", JsonVal.jstr ts)] : JsonObj).map Prod.fst := by
    intro kv hkv
    have h1 : kv.1 ≠ "reviewType" := fun h => hdisj kv hkv (by rw [h]; simp [reservedKeys])
    have h2 : kv.1 ≠ "submittedAt" := fun h => hdisj kv hkv (by rw [h]; simp [reservedKeys])
    simp [h1, h2]
  have e1 : jsSet ([] : JsonObj) "reviewType" (JsonVal.jstr ft)
      = [("reviewType", JsonVal.jstr ft)] := rfl
  have e2 : jsSet [("reviewType", JsonVal.jstr ft)] "submittedAt" (JsonVal.jstr ts)
      = [("reviewType", JsonVal.jstr ft), ("submittedAt", JsonVal.jstr ts)] := by
    rw [jsSet_fresh _ _ _ (by simp)]; rfl
  have e3 := foldl_jsSet_fresh fd
    [("reviewType", JsonVal.jstr ft), ("submittedAt", JsonVal.jstr ts)] hfr hnd
  have hk3 : ∀ k0 ∈ reservedKeys, k0 ≠ "reviewType" → k0 ≠ "submittedAt" →
      k0 ∉ (([("reviewType", JsonVal.jstr ft), ("submittedAt", JsonVal.jstr ts)] : JsonObj)
        ++ fd.map (fun kv => (kv.1, JsonVal.jstr kv.2))).map Prod.fst := by
    intro k0 hk0 hne1 hne2
    simp only [List.map_append, List.mem_append, hkeysfd, not_or]
    exact ⟨by simp [hne1, hne2], hres k0 hk0⟩
  simp only [buildPayload]
  rw [e1, e2, e3]
  rw [jsSet_fresh _ "rating" _
    (hk3 "rating" (by simp [reservedKeys]) (by decide) (by decide))]
  rw [jsSet_fresh _ "file" _ ?hfile]
  case hfile =>
    have h := hk3 "file" (by simp [reservedKeys]) (by decide) (by decide)
    simp only [List.map_append, List.mem_append, not_or] at h ⊢
    exact ⟨h, by simp⟩
  rw [jsSet_fresh _ "userAgent" _ ?hua]
  case hua =>
    have h := hk3 "userAgent" (by simp [reservedKeys]) (by decide) (by decide)
    simp only [List.map_append, List.mem_append, not_or] at h ⊢
    exact ⟨⟨h, by simp⟩, by simp⟩
  rw [jsSet_fresh _ "referrer" _ ?href]
  case href =>
    have h := hk3 "referrer" (by simp [reservedKeys]) (by decide) (by decide)
    simp only [List.map_append, List.mem_append, not_or] at h ⊢
    exact ⟨⟨⟨h, by simp⟩, by simp⟩, by simp⟩
  simp

/-! ## Claims -/

/-- C1: the claim says a failed draft read at initialisation — including a
present but malformed stored record — is silently absorbed; in the source
the mount effect calls `JSON.parse(draft)` with no `try`/`catch`, so a
malformed stored record raises an uncaught exception instead of the engine
proceeding as if no draft existed. -/
theorem C1_malformed_draft_read_throws :
    loadDraft (some .malformed) 0 = .error () := rfl

/-- C2 (counterexample): for a concrete submission, the assembled payload
has no top-level `formType` key — the source names the track property
`reviewType` — refuting the claimed key set. -/
theorem C2_counterexample :
    "formType" ∉ (buildPayload "Short Review" "2026-02-01T00:00:00.000Z"
        [("name", "Ada")] 5 none "agent" "ref").map Prod.fst ∧
      "reviewType" ∈ (buildPayload "Short Review" "2026-02-01T00:00:00.000Z"
        [("name", "Ada")] 5 none "agent" "ref").map Prod.fst := by
  decide

/-- C2 (amended): for every submission whose field keys are pairwise
distinct and avoid the reserved property names, the outbound body is a
JSON object whose top-level keys are exactly `reviewType` (the track label
string), `submittedAt`, the track-specific field keys, `rating`, `file`,
`userAgent` and `referrer`, in that order; the `rating` property is null
exactly when the rating is 0 and the integer rating otherwise; the `file`
property is the attached file or null; and every field key maps to its
recorded string value. -/
theorem C2_payload_shape (ft ts ua rf : String) (fd : FormRecord)
    (rating : Nat) (uf : Option UploadedFile)
    (hdisj : ∀ kv ∈ fd, kv.1 ∉ reservedKeys)
    (hnd : (fd.map Prod.fst).Nodup) :
    (buildPayload ft ts fd rating uf ua rf).map Prod.fst
        = ["reviewType", "submittedAt"] ++ fd.map Prod.fst
            ++ ["rating", "file", "userAgent", "referrer"] ∧
      jsGet (buildPayload ft ts fd rating uf ua rf) "reviewType"
        = some (.jstr ft) ∧
      jsGet (buildPayload ft ts fd rating uf ua rf) "submittedAt"
        = some (.jstr ts) ∧
      jsGet (buildPayload ft ts fd rating uf ua rf) "rating"
        = some (if rating = 0 then .jnull else .jnum rating) ∧
      jsGet (buildPayload ft ts fd rating uf ua rf) "file"
        = some (match uf with | some f => .jfile f | none => .jnull) ∧
      jsGet (buildPayload ft ts fd rating uf ua rf) "userAgent"
        = some (.jstr ua) ∧
      jsGet (buildPayload ft ts fd rating uf ua rf) "referrer"
        = some (.jstr rf) ∧
      ∀ kv ∈ fd, jsGet (buildPayload ft ts fd rating uf ua rf) kv.1
        = some (.jstr kv.2) := by
  have hskip : ∀ k0 ∈ reservedKeys, k0 ≠ "reviewType" → k0 ≠ "submittedAt" →
      ∀ p ∈ ([("reviewType", JsonVal.jstr ft), ("submittedAt", JsonVal.jstr ts)] : JsonObj)
        ++ fd.map (fun kv => (kv.1, JsonVal.jstr kv.2)), p.1 ≠ k0 := by
    intro k0 hk0 h1 h2 p hp
    rcases List.mem_append.mp hp with h | h
    · rcases List.mem_cons.mp h with h | h
      · rw [h]; exact fun he => h1 he.symm
      · rw [List.mem_singleton.mp h]; exact fun he => h2 he.symm
    · obtain ⟨kv, hkv, rfl⟩ := List.mem_map.mp h
      exact fun he => hdisj kv hkv (he ▸ hk0)
  rw [buildPayload_eq ft ts ua rf fd rating uf hdisj hnd]
  refine ⟨?_, ?_, ?_, ?_, ?_, ?_, ?_, ?_⟩
  · simp [List.map_map, Function.comp]
  · simp [jsGet]
  · simp [jsGet]
  · rw [jsGet_append_right _ _ "rating"
      (hskip "rating" (by simp [reservedKeys]) (by decide) (by decide))]
    simp [jsGet]
  · rw [jsGet_append_right _ _ "file"
      (hskip "file" (by simp [reservedKeys]) (by decide) (by decide))]
    simp [jsGet]
  · rw [jsGet_append_right _ _ "userAgent"
      (hskip "userAgent" (by simp [reservedKeys]) (by decide) (by decide))]
    simp [jsGet]
  · rw [jsGet_append_right _ _ "referrer"
      (hskip "referrer" (by simp [reservedKeys]) (by decide) (by decide))]
    simp [jsGet]
  · intro kv hkv
    rw [List.append_assoc]
    have hbase : ∀ p ∈ ([("reviewType", JsonVal.jstr ft),
        ("submittedAt", JsonVal.jstr ts)] : JsonObj), p.1 ≠ kv.1 := by
      intro p hp
      have h1 : kv.1 ≠ "reviewType" :=
        fun h => hdisj kv hkv (by rw [h]; simp [reservedKeys])
      have h2 : kv.1 ≠ "submittedAt" :=
        fun h => hdisj kv hkv (by rw [h]; simp [reservedKeys])
      rcases List.mem_cons.mp hp with h | h
      · rw [h]; exact fun he => h1 he.symm
      · rw [List.mem_singleton.mp h]; exact fun he => h2 he.symm
    rw [jsGet_append_right _ _ kv.1 hbase]
    exact jsGet_map_jstr fd _ hnd kv hkv

/-- C2 (witness): the amended payload-shape theorem instantiated at a
concrete deep-dive submission. -/
theorem C2_payload_shape_witness :
    ((∀ kv ∈ ([("name", "Ada"), ("company", "Acme")] : FormRecord),
        kv.1 ∉ reservedKeys) ∧
      ((([("name", "Ada"), ("company", "Acme")] : FormRecord)).map
        Prod.fst).Nodup) ∧
    (buildPayload "Testimonial Deep-Dive" "2026-02-01T00:00:00.000Z"
        [("name", "Ada"), ("company", "Acme")] 0
        (some ⟨"logo.png", "image/png", 3, "data:image/png;base64,AQID"⟩)
        "agent" "ref").map Prod.fst
      = ["reviewType", "submittedAt", "name", "company", "rating", "file",
          "userAgent", "referrer"] ∧
    jsGet (buildPayload "Testimonial Deep-Dive" "2026-02-01T00:00:00.000Z"
        [("name", "Ada"), ("company", "Acme")] 0
        (some ⟨"logo.png", "image/png", 3, "data:image/png;base64,AQID"⟩)
        "agent" "ref") "rating" = some .jnull := by
  have h := C2_payload_shape "Testimonial Deep-Dive" "2026-02-01T00:00:00.000Z"
    "agent" "ref" [("name", "Ada"), ("company", "Acme")] 0
    (some ⟨"logo.png", "image/png", 3, "data:image/png;base64,AQID"⟩)
    (by decide) (by decide)
  exact ⟨⟨by decide, by decide⟩, by simpa using h.1, by simpa using h.2.2.2.1⟩

/-- C3 (counterexample): `"a@b."` fits the claim's pattern — local part
`a` and domain `b.` are non-empty, whitespace-free, and the domain
contains a dot — yet the source's regex rejects it, so `validateField`
returns the invalid-email error where the claim requires none. -/
theorem C3_counterexample :
    specEmailPattern "a@b.".data = true ∧
      validateField "email" "a@b." false = some invalidEmailMsg := by
  decide

/-- C3 (amended): `validateField` returns the required-field error exactly
when `required` is true and the value is the empty string (no trimming);
it returns the invalid-email error exactly when that does not apply, the
field is the email field, the value is non-empty and the value does not
decompose as `local@x.y` with `local`, `x`, `y` non-empty and free of
whitespace and `@`; in every other case it returns no error.  The function
is a pure function of its three arguments. -/
theorem C3_validateField_characterisation (id value : String) (required : Bool) :
    (validateField id value required = some requiredMsg ↔
      required = true ∧ value = "") ∧
    (validateField id value required = some invalidEmailMsg ↔
      ¬(required = true ∧ value = "") ∧ id = "email" ∧ value ≠ "" ∧
        ¬ EmailShape value.data) ∧
    (validateField id value required = none ↔
      ¬(required = true ∧ value = "") ∧
        ¬(id = "email" ∧ value ≠ "" ∧ ¬ EmailShape value.data)) := by
  have hmsg : requiredMsg ≠ invalidEmailMsg := by decide
  have hcond2 : (id == "email" && value != "" && !emailMatch value.data) = true ↔
      (id = "email" ∧ value ≠ "" ∧ ¬ EmailShape value.data) := by
    constructor
    · intro h
      simp only [Bool.and_eq_true, beq_iff_eq, bne_iff_ne, Bool.not_eq_true'] at h
      refine ⟨h.1.1, h.1.2, fun hsh => ?_⟩
      rw [(emailMatch_iff value.data).mpr hsh] at h
      exact absurd h.2 (by decide)
    · rintro ⟨h1, h2, h3⟩
      have : emailMatch value.data = false := by
        cases hb : emailMatch value.data
        · rfl
        · exact absurd ((emailMatch_iff value.data).mp hb) h3
      simp [h1, h2, this]
  cases hb1 : (required && value == "") with
  | true =>
    have h1 : required = true ∧ value = "" := by
      simpa [Bool.and_eq_true] using hb1
    obtain ⟨hr, hv⟩ := h1
    subst hv
    rw [validateField, if_pos hb1]
    refine ⟨by simp [hr], ?_, by simp [hr]⟩
    constructor
    · intro hsome
      exact absurd (Option.some.inj hsome) hmsg
    · rintro ⟨hno, -⟩
      exact absurd ⟨hr, rfl⟩ hno
  | false =>
    have h1 : ¬(required = true ∧ value = "") := by
      rintro ⟨hr, hv⟩
      rw [hr, hv] at hb1
      simp at hb1
    rw [validateField, if_neg (by simp [hb1])]
    cases hb2 : (id == "email" && value != "" && !emailMatch value.data) with
    | true =>
      have h2 := hcond2.mp hb2
      have hmsg' : invalidEmailMsg ≠ requiredMsg := fun h => hmsg h.symm
      refine ⟨by simp [hmsg', h1], ?_, ?_⟩
      · simp [h1, h2.1, h2.2.1, h2.2.2]
      · simp [h1, h2.1, h2.2.1, h2.2.2]
    | false =>
      have h2 : ¬(id = "email" ∧ value ≠ "" ∧ ¬ EmailShape value.data) :=
        fun hh => absurd (hcond2.mpr hh) (by simp [hb2])
      exact ⟨by simp [h1], by simp [h1, h2], by simp [h1, h2]⟩

/-- C4: admission of a candidate file: a MIME type outside
jpeg/png/svg+xml is rejected with the unsupported-type message regardless
of size; an allowed type larger than `5 * 1024 * 1024` bytes is rejected
with the too-large message; otherwise the file is accepted, stored as a
`data:` URI, and the original bytes are recoverable from that URI.  Either
rejection leaves a previously accepted attachment untouched. -/
theorem C4_upload_gatekeeper (f : CandidateFile) (s : WizardState)
    (hbytes : ∀ b ∈ f.bytes, b < 256) :
    (f.type ∉ validTypes →
      handleFileUpload f s =
        { s with errors := jsSet s.errors "logo" (some unsupportedTypeMsg) } ∧
      (handleFileUpload f s).uploadedFile = s.uploadedFile) ∧
    (f.type ∈ validTypes → f.size > maxSize →
      handleFileUpload f s =
        { s with errors := jsSet s.errors "logo" (some tooLargeMsg) } ∧
      (handleFileUpload f s).uploadedFile = s.uploadedFile) ∧
    (f.type ∈ validTypes → f.size ≤ maxSize →
      (handleFileUpload f s).uploadedFile
          = some ⟨f.name, f.type, f.size, readAsDataURL f.type f.bytes⟩ ∧
        dataURLBytes (readAsDataURL f.type f.bytes) = f.bytes) := by
  refine ⟨?_, ?_, ?_⟩
  · intro h
    rw [handleFileUpload, if_pos h]
    exact ⟨rfl, rfl⟩
  · intro h hsz
    rw [handleFileUpload, if_neg (by simp [h]), if_pos hsz]
    exact ⟨rfl, rfl⟩
  · intro h hsz
    rw [handleFileUpload, if_neg (by simp [h]), if_neg (by omega)]
    refine ⟨rfl, ?_⟩
    refine dataURLBytes_readAsDataURL f.type f.bytes ?_ hbytes
    simp only [validTypes, List.mem_cons, List.not_mem_nil, or_false] at h
    rcases h with h | h | h <;> rw [h] <;> decide

/-- C4 (witness): a 3-byte PNG is admitted from the initial state and its
bytes are recovered from the stored data URI. -/
theorem C4_witness :
    (∀ b ∈ ([1, 2, 3] : List Nat), b < 256) ∧
      ("image/png" ∈ validTypes ∧ 3 ≤ maxSize) ∧
      (handleFileUpload ⟨"logo.png", "image/png", 3, [1, 2, 3]⟩
          initialState).uploadedFile
        = some ⟨"logo.png", "image/png", 3, readAsDataURL "image/png" [1, 2, 3]⟩ ∧
      dataURLBytes (readAsDataURL "image/png" [1, 2, 3]) = [1, 2, 3] :=
  ⟨by decide, ⟨by decide, by decide⟩,
    (C4_upload_gatekeeper ⟨"logo.png", "image/png", 3, [1, 2, 3]⟩ initialState
      (by decide)).2.2 (by decide) (by decide)⟩

/-- C5: saving a draft and immediately loading it returns the same record;
loading a stored draft whose age is at least 24 hours yields no draft, and
the load effect leaves the stored record in place. -/
theorem C5_draft_roundtrip_and_expiry (R : FormRecord) (t now : Int)
    (h : now - t ≥ ttlMillis) :
    loadDraft (some (saveDraft R t)) t = .ok (some R) ∧
    loadDraft (some (saveDraft R t)) now = .ok none ∧
    (loadDraftEffect (some (saveDraft R t)) now).2 = some (saveDraft R t) := by
  refine ⟨?_, ?_, rfl⟩
  · simp only [loadDraft, saveDraft, Int.sub_self]
    rw [if_pos (by decide)]
  · simp only [loadDraft, saveDraft]
    rw [if_neg (by omega)]

/-- C5 (witness): the round-trip and expiry facts at a concrete record and
a stored age of exactly 24 hours. -/
theorem C5_witness :
    ((86400000 : Int) - 0 ≥ ttlMillis) ∧
      loadDraft (some (saveDraft [("name", "A")] 0)) 0
        = .ok (some [("name", "A")]) ∧
      loadDraft (some (saveDraft [("name", "A")] 0)) 86400000 = .ok none ∧
      (loadDraftEffect (some (saveDraft [("name", "A")] 0)) 86400000).2
        = some (saveDraft [("name", "A")] 0) :=
  ⟨by decide, C5_draft_roundtrip_and_expiry [("name", "A")] 0 86400000 (by decide)⟩

/-- C6: every submission attempt first sets `submitting` and clears any
prior error before the network call (the whole handler factors through
`submitStart`); on a non-ok response or transport failure the fixed banner
message is set and page, record, attachment and stored draft are
unchanged; and for every outcome `submitting` ends up false. -/
theorem C6_submit_failure (track : String) (outcome : FetchOutcome)
    (s : WizardState) (store : Option StoredValue)
    (hfail : failedOutcome outcome) :
    (submitStart s).isSubmitting = true ∧
    (submitStart s).submitError = none ∧
    handleSubmit track outcome s store
      = submitFinish track outcome (submitStart s) store ∧
    (handleSubmit track outcome s store).1.submitError = some submitFailMsg ∧
    (handleSubmit track outcome s store).1.currentPage = s.currentPage ∧
    (handleSubmit track outcome s store).1.formData = s.formData ∧
    (handleSubmit track outcome s store).1.uploadedFile = s.uploadedFile ∧
    (handleSubmit track outcome s store).2 = store ∧
    (∀ o : FetchOutcome, (handleSubmit track o s store).1.isSubmitting = false) := by
  have hall : ∀ o : FetchOutcome,
      (handleSubmit track o s store).1.isSubmitting = false := by
    intro o
    cases o with
    | response status =>
      cases h : responseOk status <;>
        simp [handleSubmit, submitFinish, submitStart, h]
    | transportError => simp [handleSubmit, submitFinish, submitStart]
  cases outcome with
  | response status =>
    have hnot : responseOk status = false := hfail
    refine ⟨rfl, rfl, rfl, ?_, ?_, ?_, ?_, ?_, hall⟩ <;>
      simp [handleSubmit, submitFinish, submitStart, hnot]
  | transportError =>
    refine ⟨rfl, rfl, rfl, ?_, ?_, ?_, ?_, ?_, hall⟩ <;>
      simp [handleSubmit, submitFinish, submitStart]

/-- C6 (witness): a 500 response from the initial state sets the fixed
banner message, keeps the page and draft, and leaves `submitting` false. -/
theorem C6_witness :
    failedOutcome (FetchOutcome.response 500) ∧
      (handleSubmit "Short Review" (FetchOutcome.response 500) initialState
          (some (saveDraft [] 0))).1.submitError = some submitFailMsg ∧
      (handleSubmit "Short Review" (FetchOutcome.response 500) initialState
          (some (saveDraft [] 0))).2 = some (saveDraft [] 0) :=
  have h := C6_submit_failure "Short Review" (.response 500) initialState
    (some (saveDraft [] 0)) rfl
  ⟨rfl, h.2.2.2.1, h.2.2.2.2.2.2.2.1⟩

/-- C7: on any response with status in `[200, 299]` the stored draft is
removed, `record.formType` is set to the submitted track label, and the
page moves to `success`. -/
theorem C7_submit_success (track : String) (status : Nat)
    (s : WizardState) (store : Option StoredValue)
    (h : 200 ≤ status ∧ status < 300) :
    (handleSubmit track (.response status) s store).2 = none ∧
    (handleSubmit track (.response status) s store).1.currentPage
      = Page.success ∧
    (handleSubmit track (.response status) s store).1.formData
      = jsSet s.formData "formType" track ∧
    jsGet (handleSubmit track (.response status) s store).1.formData "formType"
      = some track := by
  have hok : responseOk status = true := by
    simp only [responseOk, Bool.and_eq_true, decide_eq_true_eq]
    exact ⟨h.1, h.2⟩
  refine ⟨?_, ?_, ?_, ?_⟩ <;>
    simp [handleSubmit, submitFinish, submitStart, hok, jsGet_jsSet_self]

/-- C7 (witness): a 200 response removes a stored draft, moves to the
success page, and records the track label under `formType`. -/
theorem C7_witness :
    (200 ≤ 200 ∧ 200 < 300) ∧
      (handleSubmit "Short Review" (FetchOutcome.response 200) initialState
          (some (saveDraft [("name", "A")] 0))).2 = none ∧
      (handleSubmit "Short Review" (FetchOutcome.response 200) initialState
          (some (saveDraft [("name", "A")] 0))).1.currentPage = Page.success ∧
      jsGet (handleSubmit "Short Review" (FetchOutcome.response 200) initialState
          (some (saveDraft [("name", "A")] 0))).1.formData "formType"
        = some "Short Review" :=
  have h := C7_submit_success "Short Review" 200 initialState
    (some (saveDraft [("name", "A")] 0)) (by decide)
  ⟨by decide, h.1, h.2.1, h.2.2.2⟩

/-- C8: the track-choice and back transitions change only the page:
`choose(shortReview)`, `back`, `choose(deepDive)` from any state ends on
the deep-dive page with the record untouched, and going back from a track
page preserves record, rating and attachment; indeed both transitions
rewrite nothing but `currentPage`. -/
theorem C8_navigation_frame (s : WizardState) :
    (choose .deepDive (goBack (choose .shortReview s))).currentPage
        = Page.testimonial_deepdive ∧
    (choose .deepDive (goBack (choose .shortReview s))).formData = s.formData ∧
    (∀ t : Track,
      (goBack (choose t s)).formData = s.formData ∧
      (goBack (choose t s)).rating = s.rating ∧
      (goBack (choose t s)).uploadedFile = s.uploadedFile) ∧
    (∀ t : Track, choose t s = { s with currentPage := trackPage t }) ∧
    goBack s = { s with currentPage := Page.landing } :=
  ⟨rfl, rfl, fun _ => ⟨rfl, rfl, rfl⟩, fun _ => rfl, rfl⟩

/-- C9: `handleInputChange` always calls the validator with the required
flag fixed to `true`, so editing any field — required or optional — down
to the empty string records the required-field error for it. -/
theorem C9_required_flag_hardcoded (s : WizardState) (id : String) :
    (∀ value, jsGet (handleInputChange id value s).errors id
        = some (validateField id value true)) ∧
    jsGet (handleInputChange id "" s).errors id = some (some requiredMsg) := by
  constructor
  · intro value
    exact jsGet_jsSet_self s.errors id (validateField id value true)
  · show jsGet (jsSet s.errors id (validateField id "" true)) id
      = some (some requiredMsg)
    rw [show validateField id "" true = some requiredMsg from rfl]
    exact jsGet_jsSet_self s.errors id (some requiredMsg)

/-- C10: the full reset run by the success page's "Return Home" button
clears page, record, rating and attachment to their defaults but leaves
the per-field validation map and `submitError` untouched, so previously
recorded error entries survive into the next session. -/
theorem C10_returnHome_partial_reset (s : WizardState) :
    (returnHome s).currentPage = Page.landing ∧
    (returnHome s).formData = [] ∧
    (returnHome s).rating = 0 ∧
    (returnHome s).uploadedFile = none ∧
    (returnHome s).errors = s.errors ∧
    (returnHome s).submitError = s.submitError :=
  ⟨rfl, rfl, rfl, rfl, rfl, rfl⟩

end ReviewHubModel
